import Mathlib

/-
Shallow embedding of the codestat directory analyzer (src/bin.js).

The script walks a directory tree depth-first, skips node_modules and .git
directories, counts lines / files / bytes of files whose extension is in a
fixed allow-list, and reports the ten largest files and ten most frequent
extensions.  The filesystem is modelled as an inductive tree whose file
nodes carry the outcome of the two reads the script performs on them
(fs.promises.readFile and fs.promises.stat); directory nodes carry either
their listing or the error that fs.promises.readdir would raise.
-/

/-- Suffix of the list strictly after the last occurrence of sep, or none
if sep does not occur. -/
def afterLast (sep : Char) : List Char → Option (List Char)
  | [] => none
  | c :: cs =>
    match afterLast sep cs with
    | some r => some r
    | none => if c = sep then some cs else none

/-- Node path.basename for paths that do not end in a slash: the text after
the last slash (the whole string if there is no slash). -/
def basename (p : String) : String :=
  match afterLast '/' p.data with
  | some r => ⟨r⟩
  | none => p

/-- Node path.join of a directory path and a plain directory-entry name
(src/bin.js:71).  Entry names returned by readdir contain no slash, so the
join is plain concatenation with a separator. -/
def pathJoin (d n : String) : String :=
  if d = "" then n else d ++ "/" ++ n

/-- Node path.extname applied to a path component: the text from the last
dot to the end; empty when there is no dot, when the only dot is the
leading character (hidden files such as ".gitignore"), and for the
component "..". -/
def extnameBase (base : String) : String :=
  match base.data with
  | [] => ""
  | _ :: cs =>
    if base = ".." then ""
    else
      match afterLast '.' cs with
      | some r => ⟨'.' :: r⟩
      | none => ""

/-- Node path.extname of a full path without trailing slashes: the
extension of its last component. -/
def extname (p : String) : String := extnameBase (basename p)

/-- ext = path.extname(fullPath).slice(1).toLowerCase() (src/bin.js:80).
Char.toLower agrees with the JS toLowerCase on the ASCII extension strings
the allow-list can match. -/
def extOf (p : String) : String := ⟨((extname p).data.drop 1).map Char.toLower⟩

/-- JS String.split on the newline character, as the pair of the first
segment and the list of remaining segments. -/
def splitNlP : List Char → List Char × List (List Char)
  | [] => ([], [])
  | c :: cs =>
    let p := splitNlP cs
    if c = '\n' then ([], p.1 :: p.2) else (c :: p.1, p.2)

/-- fileContent.split("\n") (src/bin.js:89): the list of
newline-delimited segments of the content. -/
def splitNl (l : List Char) : List (List Char) := (splitNlP l).1 :: (splitNlP l).2

/-- lines = fileContent.split("\n").length (src/bin.js:89). -/
def countLines (s : String) : Nat := (splitNl s.data).length

/-- CODE_FILE_EXTENSIONS (src/bin.js:9-49).  The JS Set is modelled as the
list of its elements; membership agrees with Set.has. -/
def CODE_FILE_EXTENSIONS : List String := [
  "js", "ts", "jsx", "tsx", "py", "java", "rb", "php", "go", "rs", "c", "cpp", "cs", "swift", "kt", "kts",
  "html", "css", "scss", "sass", "less", "vue", "svelte", "dart", "r", "pl", "lua", "scala",
  "erl", "ex", "exs", "hs", "ml", "mli", "nim", "elm", "clj", "cljs", "coffee",
  "json", "yml", "yaml", "xml", "toml", "ini", "conf", "config", "properties",
  "plist", "env", "lock", "csv", "tsv", "ndjson", "avro", "parquet", "orc",
  "sh", "bash", "zsh", "fish", "bat", "cmd", "ps1",
  "md", "markdown", "txt", "rst", "asciidoc", "adoc", "org", "creole",
  "sql", "prisma", "graphql", "gql", "hbs", "handlebars", "ejs", "pug", "jade",
  "mustache", "jinja", "jinja2", "njk", "liquid", "twig",
  "spec.js", "test.js", "spec.ts", "test.ts", "story.js", "story.ts",
  "dockerfile", "dockerignore", "compose.yml", "compose.yaml", "k8s.yml", "k8s.yaml",
  "gitignore", "gitattributes", "editorconfig",
  "travis.yml", "circleci.yml", "github.yml", "gitlab-ci.yml", "jenkinsfile", "pipeline",
  "package.json", "package-lock.json", "yarn.lock", "pnpm-lock.yaml", "composer.json",
  "workspace", "workspace.json", "code-workspace", "settings.json",
  "wasm", "so", "dll", "exe", "bin"]

/-- Mutable accumulator of analyzeFolder (src/bin.js:61-65): the running
totals, the candidate list fileLines, the insertion-ordered extension
tally, and the console.warn lines emitted so far (the diagnostic stream).
extensionsCount is an insertion-ordered association list: JS object keys
that are not array indices enumerate in insertion order, and no
allow-listed extension is an array-index string. -/
structure ScanState where
  totalLines : Nat
  totalFiles : Nat
  totalSize : Nat
  fileLines : List (String × Nat)
  extensionsCount : List (String × Nat)
  warnings : List String
deriving DecidableEq

/-- console.warn("Warning: Could not read file " + fullPath, error.message)
(src/bin.js:100); console.warn joins its arguments with a space. -/
def warnLine (fullPath msg : String) : String :=
  "Warning: Could not read file " ++ fullPath ++ " " ++ msg

/-- extensionsCount[ext] = (extensionsCount[ext] or 0) + 1 (src/bin.js:98):
update in place when the key exists, append a fresh binding otherwise. -/
def bumpExt (m : List (String × Nat)) (k : String) : List (String × Nat) :=
  if k ∈ m.map Prod.fst then
    m.map (fun p => if p.1 = k then (p.1, p.2 + 1) else p)
  else m ++ [(k, 1)]

/-- Body of the accepted-file branch (src/bin.js:84-101): count the file,
then try the content read, then the stat; either failure is caught by the
surrounding try and logged, leaving the updates made so far in place. -/
def visitFile (st : ScanState) (fullPath ext : String)
    (content : Except String String) (statSize : Except String Nat) : ScanState :=
  let st1 := { st with totalFiles := st.totalFiles + 1 }
  match content with
  | .error msg => { st1 with warnings := st1.warnings ++ [warnLine fullPath msg] }
  | .ok text =>
    let lines := countLines text
    let st2 := { st1 with
      totalLines := st1.totalLines + lines,
      fileLines := st1.fileLines ++ [(fullPath, lines)] }
    match statSize with
    | .error msg => { st2 with warnings := st2.warnings ++ [warnLine fullPath msg] }
    | .ok size =>
      { st2 with
        totalSize := st2.totalSize + size,
        extensionsCount := bumpExt st2.extensionsCount ext }

/-- One directory entry of the modelled filesystem.  A file node records
what fs.promises.readFile (utf8 text) and fs.promises.stat (size field)
would return for it.  dirOk and dirErr record the outcome readdir would
have on the subdirectory.  other stands for an entry for which both
Dirent.isDirectory() and Dirent.isFile() are false (symlink, socket,
FIFO, device). -/
inductive FsEntry where
  | file (name : String) (content : Except String String) (statSize : Except String Nat) : FsEntry
  | dirOk (name : String) (entries : List FsEntry) : FsEntry
  | dirErr (name : String) (msg : String) : FsEntry
  | other (name : String) : FsEntry

mutual

/-- Loop body of analyzeDir for one dirent (src/bin.js:70-104).  A thrown
readdir error propagates as Except.error. -/
def analyzeEntry (dirPath : String) (st : ScanState) : FsEntry → Except String ScanState
  | .file name content statSize =>
    let fullPath := pathJoin dirPath name
    let ext := extOf fullPath
    if ext ∈ CODE_FILE_EXTENSIONS then .ok (visitFile st fullPath ext content statSize)
    else .ok st
  | .dirOk name entries =>
    let fullPath := pathJoin dirPath name
    if basename fullPath = "node_modules" ∨ basename fullPath = ".git" then .ok st
    else analyzeEntries fullPath st entries
  | .dirErr name msg =>
    let fullPath := pathJoin dirPath name
    if basename fullPath = "node_modules" ∨ basename fullPath = ".git" then .ok st
    else .error msg
  | .other _ => .ok st

/-- The for-of loop of analyzeDir over the dirents of one directory
(src/bin.js:70): sequential, stops at the first uncaught error. -/
def analyzeEntries (dirPath : String) (st : ScanState) : List FsEntry → Except String ScanState
  | [] => .ok st
  | e :: es =>
    match analyzeEntry dirPath st e with
    | .error msg => .error msg
    | .ok st1 => analyzeEntries dirPath st1 es

end

/-- Stable insertion of x into a list sorted descending by key: x goes
after every element whose key is at least key x. -/
def insertDesc (key : α → Nat) (x : α) : List α → List α
  | [] => [x]
  | y :: ys => if key y < key x then x :: y :: ys else y :: insertDesc key x ys

/-- The JS stable sort with comparator (a, b) => key b - key a
(src/bin.js:110 and 114): descending by key, ties retaining encounter
order.  Array.prototype.sort is stable, and a stable descending sort is
uniquely determined, so the insertion sort computes the same list. -/
def sortDesc (key : α → Nat) (l : List α) : List α :=
  l.foldl (fun acc x => insertDesc key x acc) []

/-- Value returned by analyzeFolder (src/bin.js:117), plus the warning
lines the scan emitted on the diagnostic stream. -/
structure ScanResult where
  totalLines : Nat
  totalFiles : Nat
  totalSize : Nat
  topFiles : List (String × Nat)
  topExtensions : List (String × Nat)
  warnings : List String
deriving DecidableEq

/-- Final top-K step of analyzeFolder (src/bin.js:109-117): sort the
candidates descending and keep the first ten. -/
def finalize (st : ScanState) : ScanResult :=
  { totalLines := st.totalLines
    totalFiles := st.totalFiles
    totalSize := st.totalSize
    topFiles := (sortDesc (fun p => p.2) st.fileLines).take 10
    topExtensions := (sortDesc (fun p => p.2) st.extensionsCount).take 10
    warnings := st.warnings }

/-- Fresh accumulator at scan start (src/bin.js:61-65). -/
def initState : ScanState := ⟨0, 0, 0, [], [], []⟩

/-- analyzeFolder (src/bin.js:60-118): run analyzeDir on the root listing
and finalize.  rootListing is what fs.promises.readdir(folderPath) yields;
an invalid root path is the error case. -/
def analyzeFolder (folderPath : String) (rootListing : Except String (List FsEntry)) :
    Except String ScanResult :=
  match rootListing with
  | .error msg => .error msg
  | .ok entries =>
    match analyzeEntries folderPath initState entries with
    | .error msg => .error msg
    | .ok st => .ok (finalize st)

/-- JS Number.prototype.toFixed(2) for the exact value num / den, num a
file size and den a power of two (1024 or 1048576).  Such quotients are
exact in double precision for num below 2 to the 53, and toFixed picks
the integer n closest to 100 * num / den, the larger on a tie, then
prints n with the last two digits after the point. -/
def toFixed2 (num den : Nat) : String :=
  let n := (200 * num + den) / (2 * den)
  toString (n / 100) ++ "." ++ toString (n % 100 / 10) ++ toString (n % 100 % 10)

/-- humanReadableSize (src/bin.js:126-130). -/
def humanReadableSize (size : Nat) : String :=
  if size < 1024 then toString size ++ " B"
  else if size < 1024 * 1024 then toFixed2 size 1024 ++ " KB"
  else toFixed2 size (1024 * 1024) ++ " MB"

/-- The console.log lines of the success path of main (src/bin.js:145-161),
one list element per console.log call. -/
def report (r : ScanResult) : List String :=
  ["\n",
   "----------------------------",
   "| Project Analysis Summary |",
   "----------------------------",
   "* Total lines of code: " ++ toString r.totalLines,
   "* Total number of files: " ++ toString r.totalFiles,
   "* Total size of files: " ++ humanReadableSize r.totalSize,
   "\n",
   "[i] Top 10 files with most lines:"]
  ++ r.topFiles.map (fun p => "  " ++ toString p.2 ++ " lines - " ++ p.1)
  ++ ["\n",
      "[i] Top 10 most popular file formats:"]
  ++ r.topExtensions.map (fun p => "  " ++ toString p.2 ++ " files - ." ++ p.1)

/-- Observable outcome of one process run: stdout lines, stderr lines
(console.error and console.warn), and the exit code. -/
structure RunResult where
  stdout : List String
  stderr : List String
  exitCode : Nat
deriving DecidableEq

/-- The main IIFE (src/bin.js:133-166).  arg is process.argv[2];
rootListing is what readdir would yield on that path.  On a fatal scan
error nothing is printed to stdout and the process exits 1 after the
error message goes to stderr. -/
def runMain (arg : Option String) (rootListing : Except String (List FsEntry)) : RunResult :=
  match arg with
  | none => ⟨[], ["Usage: codestat <directory>"], 1⟩
  | some folderPath =>
    match analyzeFolder folderPath rootListing with
    | .error msg => ⟨[], ["Error: " ++ msg], 1⟩
    | .ok res => ⟨report res, res.warnings, 0⟩

/-- Did the modelled I/O operation succeed. -/
def exOk : Except ε α → Bool
  | .ok _ => true
  | .error _ => false

/-- True when a string contains no slash.  Directory-entry names returned
by readdir never contain a slash. -/
def noSlash (s : String) : Bool := decide ('/' ∉ s.data)

/-- Record of one accepted file as the visitor sees it when both of its
reads succeed: full path, classified extension, line count, byte size. -/
structure AccFile where
  path : String
  ext : String
  lines : Nat
  size : Nat
deriving DecidableEq

/-- Text of a successful content read, with a dummy for the error case. -/
def okStr : Except String String → String
  | .ok s => s
  | .error _ => ""

/-- Size of a successful stat, with a dummy for the error case. -/
def okNat : Except String Nat → Nat
  | .ok n => n
  | .error _ => 0

mutual

/-- The accepted files one entry contributes to the scan, in traversal
order: allow-listed files of the entry itself and of its non-ignored
subdirectories. -/
def acceptedEntry (dirPath : String) : FsEntry → List AccFile
  | .file name content statSize =>
    let fullPath := pathJoin dirPath name
    let ext := extOf fullPath
    if ext ∈ CODE_FILE_EXTENSIONS then
      [⟨fullPath, ext, countLines (okStr content), okNat statSize⟩]
    else []
  | .dirOk name entries =>
    let fullPath := pathJoin dirPath name
    if basename fullPath = "node_modules" ∨ basename fullPath = ".git" then []
    else acceptedEntries fullPath entries
  | .dirErr _ _ => []
  | .other _ => []

/-- acceptedEntry extended over a listing. -/
def acceptedEntries (dirPath : String) : List FsEntry → List AccFile
  | [] => []
  | e :: es => acceptedEntry dirPath e ++ acceptedEntries dirPath es

end

mutual

/-- Wellformedness of a modelled entry for an error-free scan: entry names
are slash-free (as real dirents are), every reachable accepted file has
both reads succeed, and every reachable directory lists successfully. -/
def wfOk : FsEntry → Bool
  | .file name content statSize =>
    noSlash name &&
      (decide (extOf name ∉ CODE_FILE_EXTENSIONS) || (exOk content && exOk statSize))
  | .dirOk name entries =>
    noSlash name && (decide (name = "node_modules") || decide (name = ".git") || allWfOk entries)
  | .dirErr name _ =>
    noSlash name && (decide (name = "node_modules") || decide (name = ".git"))
  | .other _ => true

/-- wfOk extended over a listing. -/
def allWfOk : List FsEntry → Bool
  | [] => true
  | e :: es => wfOk e && allWfOk es

end

/-- The pure effect of visiting one fully readable accepted file, equal to
visitFile on two successful reads. -/
def applyAcc (st : ScanState) (f : AccFile) : ScanState :=
  { totalLines := st.totalLines + f.lines
    totalFiles := st.totalFiles + 1
    totalSize := st.totalSize + f.size
    fileLines := st.fileLines ++ [(f.path, f.lines)]
    extensionsCount := bumpExt st.extensionsCount f.ext
    warnings := st.warnings }

/-- Insert a key into an insertion-ordered key list if it is new. -/
def insKey (acc : List String) (k : String) : List String :=
  if k ∈ acc then acc else acc ++ [k]

/-- Number of distinct strings in a list (first-encounter dedup). -/
def distinctCount (ks : List String) : Nat := (ks.foldl insKey []).length

/-- Extension of a file name as the claim wording describes it: the text
after the last dot, lowercased, and empty when there is no dot. -/
def claimedExt (name : String) : String :=
  match afterLast '.' name.data with
  | some r => ⟨r.map Char.toLower⟩
  | none => ""

theorem afterLast_eq_none_iff (sep : Char) (l : List Char) :
    afterLast sep l = none ↔ sep ∉ l := by
  induction l with
  | nil => simp [afterLast]
  | cons c cs ih =>
    simp only [afterLast, List.mem_cons]
    cases h : afterLast sep cs with
    | some r => simp [h] at ih; simp [ih]
    | none =>
      simp [h] at ih
      by_cases hc : c = sep <;> simp [hc, ih]
      exact fun h2 => (hc h2.symm).elim

theorem afterLast_not_mem (sep : Char) {l r : List Char} (h : afterLast sep l = some r) :
    sep ∉ r := by
  induction l with
  | nil => simp [afterLast] at h
  | cons c cs ih =>
    simp only [afterLast] at h
    cases h2 : afterLast sep cs with
    | some r2 =>
      rw [h2] at h
      cases h
      exact ih h2
    | none =>
      rw [h2] at h
      by_cases hc : c = sep
      · simp [hc] at h
        subst h
        exact (afterLast_eq_none_iff sep cs).1 h2
      · simp [hc] at h

theorem afterLast_append (sep : Char) (l post : List Char) (h : sep ∉ post) :
    afterLast sep (l ++ sep :: post) = some post := by
  induction l with
  | nil =>
    simp only [List.nil_append, afterLast]
    rw [(afterLast_eq_none_iff sep post).2 h]
    simp
  | cons c cs ih =>
    have ih2 : afterLast sep (cs.append (sep :: post)) = some post := ih
    simp only [List.cons_append, afterLast, ih2]

theorem basename_noSlash {n : String} (h : noSlash n = true) : basename n = n := by
  simp only [noSlash, decide_eq_true_eq] at h
  simp [basename, (afterLast_eq_none_iff '/' n.data).2 h]

theorem basename_join (d : String) {n : String} (h : noSlash n = true) :
    basename (pathJoin d n) = n := by
  simp only [noSlash, decide_eq_true_eq] at h
  by_cases hd : d = ""
  · simp [pathJoin, hd, basename, (afterLast_eq_none_iff '/' n.data).2 h]
  · have hdata : (d ++ "/" ++ n).data = d.data ++ '/' :: n.data := by
      rw [String.data_append, String.data_append, List.append_assoc]
      rfl
    simp only [pathJoin, if_neg hd, basename, hdata,
      afterLast_append '/' d.data n.data h]

theorem extOf_join (d : String) {n : String} (h : noSlash n = true) :
    extOf (pathJoin d n) = extOf n := by
  simp [extOf, extname, basename_join d h, basename_noSlash h]

theorem splitNlP_snd_length (l : List Char) :
    (splitNlP l).2.length = l.count '\n' := by
  induction l with
  | nil => simp [splitNlP]
  | cons c cs ih =>
    simp only [splitNlP]
    by_cases hc : c = '\n'
    · simp [hc, List.count_cons, ih]
    · simp [hc, List.count_cons, ih]

theorem countLines_eq (s : String) : countLines s = s.data.count '\n' + 1 := by
  simp [countLines, splitNl, splitNlP_snd_length]

theorem countLines_no_newline {s : String} (h : '\n' ∉ s.data) : countLines s = 1 := by
  rw [countLines_eq, List.count_eq_zero.2 h]

theorem countLines_append_newline (s : String) :
    countLines (s ++ "\n") = countLines s + 1 := by
  rw [countLines_eq, countLines_eq, String.data_append]
  have : ("\n" : String).data = ['\n'] := rfl
  rw [this, List.count_append]
  simp [List.count_cons]

theorem length_insertDesc (key : α → Nat) (x : α) (l : List α) :
    (insertDesc key x l).length = l.length + 1 := by
  induction l with
  | nil => rfl
  | cons y ys ih =>
    simp only [insertDesc]
    by_cases h : key y < key x <;> simp [h, ih]

theorem length_sortDesc (key : α → Nat) (l : List α) :
    (sortDesc key l).length = l.length := by
  have main : ∀ (l : List α) (acc : List α),
      (l.foldl (fun acc x => insertDesc key x acc) acc).length = acc.length + l.length := by
    intro l
    induction l with
    | nil => simp
    | cons x xs ih =>
      intro acc
      simp only [List.foldl_cons, ih, length_insertDesc, List.length_cons]
      omega
  simpa using main l []

theorem mem_insertDesc (key : α → Nat) (x z : α) (l : List α) :
    z ∈ insertDesc key x l ↔ z = x ∨ z ∈ l := by
  induction l with
  | nil => simp [insertDesc]
  | cons y ys ih =>
    simp only [insertDesc]
    by_cases h : key y < key x
    · simp [h]
    · simp only [if_neg h, List.mem_cons, ih]
      tauto

theorem pairwise_insertDesc (key : α → Nat) (x : α) {l : List α}
    (h : List.Pairwise (fun a b => key b ≤ key a) l) :
    List.Pairwise (fun a b => key b ≤ key a) (insertDesc key x l) := by
  induction l with
  | nil => simp [insertDesc]
  | cons y ys ih =>
    rcases List.pairwise_cons.1 h with ⟨hy, hys⟩
    simp only [insertDesc]
    by_cases hk : key y < key x
    · simp only [if_pos hk]
      refine List.pairwise_cons.2 ⟨?_, h⟩
      intro z hz
      rcases List.mem_cons.1 hz with rfl | hz
      · exact Nat.le_of_lt hk
      · exact Nat.le_trans (hy z hz) (Nat.le_of_lt hk)
    · simp only [if_neg hk]
      refine List.pairwise_cons.2 ⟨?_, ih hys⟩
      intro z hz
      rcases (mem_insertDesc key x z ys).1 hz with rfl | hz
      · exact Nat.le_of_not_lt hk
      · exact hy z hz

theorem sortDesc_pairwise (key : α → Nat) (l : List α) :
    List.Pairwise (fun a b => key b ≤ key a) (sortDesc key l) := by
  have main : ∀ (l acc : List α), List.Pairwise (fun a b => key b ≤ key a) acc →
      List.Pairwise (fun a b => key b ≤ key a)
        (l.foldl (fun acc x => insertDesc key x acc) acc) := by
    intro l
    induction l with
    | nil => intro acc h; simpa using h
    | cons x xs ih =>
      intro acc h
      exact ih _ (pairwise_insertDesc key x h)
  exact main l [] List.Pairwise.nil

theorem filter_insertDesc_ne (key : α → Nat) (x : α) (l : List α) {k : Nat}
    (hk : key x ≠ k) :
    (insertDesc key x l).filter (fun y => key y == k) =
      l.filter (fun y => key y == k) := by
  induction l with
  | nil => simp [insertDesc, List.filter_cons, hk]
  | cons y ys ih =>
    simp only [insertDesc]
    by_cases h : key y < key x
    · simp only [if_pos h, List.filter]
      rw [show (key x == k) = false by simp [hk]]
    · simp only [if_neg h, List.filter_cons, ih]

theorem filter_insertDesc_eq (key : α → Nat) (x : α) {l : List α}
    (h : List.Pairwise (fun a b => key b ≤ key a) l) :
    (insertDesc key x l).filter (fun y => key y == key x) =
      l.filter (fun y => key y == key x) ++ [x] := by
  induction l with
  | nil => simp [insertDesc, List.filter]
  | cons y ys ih =>
    rcases List.pairwise_cons.1 h with ⟨hy, hys⟩
    simp only [insertDesc]
    by_cases hk : key y < key x
    · have hyne : (key y == key x) = false := by
        simp; omega
      have hysnil : ys.filter (fun z => key z == key x) = [] := by
        apply List.filter_eq_nil_iff.2
        intro z hz
        have := hy z hz
        simp; omega
      simp only [if_pos hk, List.filter_cons, hyne, hysnil]
      simp [List.filter_cons]
    · simp only [if_neg hk, List.filter_cons, ih hys]
      by_cases hyk : key y = key x <;> simp [hyk]

theorem sortDesc_filter (key : α → Nat) (l : List α) (k : Nat) :
    (sortDesc key l).filter (fun y => key y == k) = l.filter (fun y => key y == k) := by
  have main : ∀ (l acc : List α), List.Pairwise (fun a b => key b ≤ key a) acc →
      (l.foldl (fun acc x => insertDesc key x acc) acc).filter (fun y => key y == k) =
        acc.filter (fun y => key y == k) ++ l.filter (fun y => key y == k) := by
    intro l
    induction l with
    | nil => intro acc _; simp
    | cons x xs ih =>
      intro acc hacc
      simp only [List.foldl_cons]
      rw [ih _ (pairwise_insertDesc key x hacc)]
      by_cases hx : key x = k
      · subst hx
        rw [filter_insertDesc_eq key x hacc]
        simp [List.filter_cons]
      · rw [filter_insertDesc_ne key x acc hx]
        simp [List.filter_cons, hx]
  simpa using main l [] List.Pairwise.nil

theorem visitFile_ok_ok (st : ScanState) (p e text : String) (n : Nat) :
    visitFile st p e (.ok text) (.ok n) = applyAcc st ⟨p, e, countLines text, n⟩ := rfl

theorem map_fst_update (m : List (String × Nat)) (k : String) :
    (m.map (fun p => if p.1 = k then (p.1, p.2 + 1) else p)).map Prod.fst = m.map Prod.fst := by
  induction m with
  | nil => rfl
  | cons p ps ih =>
    simp only [List.map_cons, ih]
    by_cases h : p.1 = k <;> simp [h]

theorem bumpExt_keys (m : List (String × Nat)) (k : String) :
    (bumpExt m k).map Prod.fst = insKey (m.map Prod.fst) k := by
  unfold bumpExt insKey
  by_cases h : k ∈ m.map Prod.fst
  · simp only [if_pos h, map_fst_update]
  · simp [if_neg h]

theorem foldl_applyAcc_totalFiles (fs : List AccFile) (st : ScanState) :
    (fs.foldl applyAcc st).totalFiles = st.totalFiles + fs.length := by
  induction fs generalizing st with
  | nil => simp
  | cons f fs ih =>
    simp only [List.foldl_cons, ih, applyAcc, List.length_cons]
    omega

theorem foldl_applyAcc_totalLines (fs : List AccFile) (st : ScanState) :
    (fs.foldl applyAcc st).totalLines = st.totalLines + (fs.map AccFile.lines).sum := by
  induction fs generalizing st with
  | nil => simp
  | cons f fs ih =>
    simp only [List.foldl_cons, ih, applyAcc, List.map_cons, List.sum_cons]
    omega

theorem foldl_applyAcc_totalSize (fs : List AccFile) (st : ScanState) :
    (fs.foldl applyAcc st).totalSize = st.totalSize + (fs.map AccFile.size).sum := by
  induction fs generalizing st with
  | nil => simp
  | cons f fs ih =>
    simp only [List.foldl_cons, ih, applyAcc, List.map_cons, List.sum_cons]
    omega

theorem foldl_applyAcc_fileLines (fs : List AccFile) (st : ScanState) :
    (fs.foldl applyAcc st).fileLines = st.fileLines ++ fs.map (fun f => (f.path, f.lines)) := by
  induction fs generalizing st with
  | nil => simp
  | cons f fs ih =>
    simp only [List.foldl_cons, ih, applyAcc, List.map_cons]
    simp

theorem foldl_applyAcc_warnings (fs : List AccFile) (st : ScanState) :
    (fs.foldl applyAcc st).warnings = st.warnings := by
  induction fs generalizing st with
  | nil => rfl
  | cons f fs ih => simp only [List.foldl_cons, ih, applyAcc]

theorem foldl_applyAcc_extCount (fs : List AccFile) (st : ScanState) :
    (fs.foldl applyAcc st).extensionsCount =
      (fs.map AccFile.ext).foldl bumpExt st.extensionsCount := by
  induction fs generalizing st with
  | nil => rfl
  | cons f fs ih => simp only [List.foldl_cons, ih, applyAcc, List.map_cons]

theorem keys_foldl_bumpExt (ks : List String) (m : List (String × Nat)) :
    (ks.foldl bumpExt m).map Prod.fst = ks.foldl insKey (m.map Prod.fst) := by
  induction ks generalizing m with
  | nil => rfl
  | cons k ks ih => simp only [List.foldl_cons, ih, bumpExt_keys]

mutual

theorem analyzeEntry_wf (dirPath : String) (st : ScanState) (e : FsEntry)
    (h : wfOk e = true) :
    analyzeEntry dirPath st e = .ok ((acceptedEntry dirPath e).foldl applyAcc st) := by
  cases e with
  | file name content statSize =>
    simp only [wfOk, Bool.and_eq_true, Bool.or_eq_true, decide_eq_true_eq] at h
    obtain ⟨hns, hread⟩ := h
    simp only [analyzeEntry, acceptedEntry, extOf_join dirPath hns]
    by_cases hmem : extOf name ∈ CODE_FILE_EXTENSIONS
    · rcases hread with hnot | ⟨hc, hs⟩
      · exact absurd hmem hnot
      · cases content with
        | error msg => simp [exOk] at hc
        | ok text =>
          cases statSize with
          | error msg => simp [exOk] at hs
          | ok n =>
            simp only [if_pos hmem, visitFile_ok_ok, okStr, okNat, List.foldl_cons,
              List.foldl_nil]
    · simp [if_neg hmem]
  | dirOk name entries =>
    simp only [wfOk, Bool.and_eq_true, Bool.or_eq_true, decide_eq_true_eq] at h
    obtain ⟨hns, hrest⟩ := h
    simp only [analyzeEntry, acceptedEntry, basename_join dirPath hns]
    by_cases hskip : name = "node_modules" ∨ name = ".git"
    · simp [if_pos hskip]
    · rcases hrest with (h1 | h2) | h3
      · exact absurd (Or.inl h1) hskip
      · exact absurd (Or.inr h2) hskip
      · simp only [if_neg hskip]
        exact analyzeEntries_wf (pathJoin dirPath name) st entries h3
  | dirErr name msg =>
    simp only [wfOk, Bool.and_eq_true, Bool.or_eq_true, decide_eq_true_eq] at h
    obtain ⟨hns, hskip⟩ := h
    simp only [analyzeEntry, acceptedEntry, basename_join dirPath hns, if_pos hskip,
      List.foldl_nil]
  | other name =>
    simp only [analyzeEntry, acceptedEntry, List.foldl_nil]

theorem analyzeEntries_wf (dirPath : String) (st : ScanState) (es : List FsEntry)
    (h : allWfOk es = true) :
    analyzeEntries dirPath st es = .ok ((acceptedEntries dirPath es).foldl applyAcc st) := by
  cases es with
  | nil => rfl
  | cons e es =>
    simp only [allWfOk, Bool.and_eq_true] at h
    obtain ⟨he, hes⟩ := h
    simp only [analyzeEntries, acceptedEntries, analyzeEntry_wf dirPath st e he,
      List.foldl_append]
    exact analyzeEntries_wf dirPath ((acceptedEntry dirPath e).foldl applyAcc st) es hes

end

theorem extnameBase_shape (base : String) :
    extnameBase base = "" ∨ ∃ r, extnameBase base = ⟨'.' :: r⟩ ∧ '.' ∉ r := by
  unfold extnameBase
  cases hd : base.data with
  | nil => exact Or.inl rfl
  | cons c cs =>
    by_cases hdd : base = ".."
    · simp [hdd]
    · simp only [if_neg hdd]
      cases ha : afterLast '.' cs with
      | none => exact Or.inl rfl
      | some r => exact Or.inr ⟨r, rfl, afterLast_not_mem '.' ha⟩

theorem toLower_eq_dot {c : Char} (h : c.toLower = '.') : c = '.' := by
  have key : ∀ n : Nat, n < 91 → 65 ≤ n → Char.ofNat (n + 32) ≠ '.' := by decide
  unfold Char.toLower at h
  by_cases hc : c.toNat ≥ 65 ∧ c.toNat ≤ 90
  · rw [if_pos hc] at h
    exact absurd h (key c.toNat (Nat.lt_succ_of_le hc.2) hc.1)
  · rwa [if_neg hc] at h

theorem extOf_no_dot (p : String) : '.' ∉ (extOf p).data := by
  rcases extnameBase_shape (basename p) with h | ⟨r, h, hr⟩
  · rw [extOf, extname, h]
    intro hmem
    simp at hmem
  · rw [extOf, extname, h]
    intro hmem
    simp only [String.data] at hmem
    rcases List.mem_map.1 hmem with ⟨c, hc, hlow⟩
    exact hr (toLower_eq_dot hlow ▸ hc)

/-- C1: for every visited accepted file the recorded line count is the
number of segments of the content split on the newline character: the
count recorded into the candidate list and added to totalLines is
split("\n").length, a content without newlines counts 1, a trailing
newline adds one empty segment, and the two worked examples hold. -/
theorem c1_lineCount :
    (∀ (st : ScanState) (p e text : String) (sz : Except String Nat),
        (visitFile st p e (.ok text) sz).fileLines = st.fileLines ++ [(p, countLines text)]) ∧
    (∀ (st : ScanState) (p e text : String) (sz : Except String Nat),
        (visitFile st p e (.ok text) sz).totalLines = st.totalLines + countLines text) ∧
    (∀ s : String, countLines s = (splitNl s.data).length) ∧
    (∀ s : String, '\n' ∉ s.data → countLines s = 1) ∧
    (∀ s : String, countLines (s ++ "\n") = countLines s + 1) ∧
    countLines "a\nb\nc" = 3 ∧ countLines "a\nb\nc\n" = 4 := by
  refine ⟨?_, ?_, ?_, ?_, ?_, ?_, ?_⟩
  · intro st p e text sz
    cases sz <;> rfl
  · intro st p e text sz
    cases sz <;> rfl
  · intro s
    rfl
  · intro s h
    exact countLines_no_newline h
  · intro s
    exact countLines_append_newline s
  · rfl
  · rfl

theorem c1_lineCount_witness : countLines "abc" = 1 :=
  c1_lineCount.2.2.2.1 "abc" (by decide)

/-- C5: the walk descends into every subdirectory except those whose
basename is exactly node_modules or .git, at any depth (the listing of a
skipped directory is never consulted, so even its readdir error is
ignored), and a node_modules branch holding 100 .js files contributes
nothing. -/
theorem c5_ignoreDirs :
    (∀ (dirPath : String) (st : ScanState) (entries : List FsEntry),
        analyzeEntry dirPath st (.dirOk "node_modules" entries) = .ok st) ∧
    (∀ (dirPath : String) (st : ScanState) (entries : List FsEntry),
        analyzeEntry dirPath st (.dirOk ".git" entries) = .ok st) ∧
    (∀ (dirPath msg : String) (st : ScanState),
        analyzeEntry dirPath st (.dirErr "node_modules" msg) = .ok st) ∧
    (∀ (dirPath msg : String) (st : ScanState),
        analyzeEntry dirPath st (.dirErr ".git" msg) = .ok st) ∧
    (∀ (dirPath name : String) (st : ScanState) (entries : List FsEntry),
        noSlash name = true → name ≠ "node_modules" → name ≠ ".git" →
        analyzeEntry dirPath st (.dirOk name entries) =
          analyzeEntries (pathJoin dirPath name) st entries) ∧
    analyzeFolder "root"
      (.ok [.dirOk "node_modules" (List.replicate 100 (.file "a.js" (.ok "x") (.ok 1)))]) =
      .ok ⟨0, 0, 0, [], [], []⟩ := by
  refine ⟨?_, ?_, ?_, ?_, ?_, ?_⟩
  · intro dirPath st entries
    have hb := basename_join dirPath (show noSlash "node_modules" = true by decide)
    simp [analyzeEntry, hb]
  · intro dirPath st entries
    have hb := basename_join dirPath (show noSlash ".git" = true by decide)
    simp [analyzeEntry, hb]
  · intro dirPath msg st
    have hb := basename_join dirPath (show noSlash "node_modules" = true by decide)
    simp [analyzeEntry, hb]
  · intro dirPath msg st
    have hb := basename_join dirPath (show noSlash ".git" = true by decide)
    simp [analyzeEntry, hb]
  · intro dirPath name st entries hns hnm hgit
    have hb := basename_join dirPath hns
    simp [analyzeEntry, hb, hnm, hgit]
  · rfl

theorem c5_ignoreDirs_witness :
    analyzeEntry "r" initState (.dirOk "src" [.other "f"]) =
      analyzeEntries (pathJoin "r" "src") initState [.other "f"] :=
  c5_ignoreDirs.2.2.2.2.1 "r" "src" initState [.other "f"] (by decide) (by decide) (by decide)

/-- C7: a failing directory listing anywhere the walk reaches aborts the
scan with that error: the loop stops at the failing entry, analyzeFolder
returns the error, and main then prints nothing to stdout, writes the
message to the error stream and exits 1; an invalid root path errors the
same way. -/
theorem c7_fatalDirError :
    (∀ (dirPath name msg : String) (st : ScanState) (rest : List FsEntry),
        noSlash name = true → name ≠ "node_modules" → name ≠ ".git" →
        analyzeEntries dirPath st (.dirErr name msg :: rest) = .error msg) ∧
    (∀ (folderPath msg : String) (rootListing : Except String (List FsEntry)),
        analyzeFolder folderPath rootListing = .error msg →
        runMain (some folderPath) rootListing = ⟨[], ["Error: " ++ msg], 1⟩) ∧
    (∀ (folderPath msg : String), analyzeFolder folderPath (.error msg) = .error msg) := by
  refine ⟨?_, ?_, ?_⟩
  · intro dirPath name msg st rest hns hnm hgit
    have hb := basename_join dirPath hns
    simp [analyzeEntries, analyzeEntry, hb, hnm, hgit]
  · intro folderPath msg rootListing h
    simp [runMain, h]
  · intro folderPath msg
    rfl

theorem c7_fatalDirError_witness :
    analyzeEntries "r" initState [.dirErr "sub" "EACCES"] = .error "EACCES" ∧
    runMain (some "r") (.ok [.dirOk "a" [.dirErr "b" "EACCES"]]) =
      ⟨[], ["Error: " ++ "EACCES"], 1⟩ :=
  ⟨c7_fatalDirError.1 "r" "sub" "EACCES" initState [] (by decide) (by decide) (by decide),
   c7_fatalDirError.2.1 "r" "EACCES" (.ok [.dirOk "a" [.dirErr "b" "EACCES"]]) rfl⟩

/-- C8 counterexample: a directory entry that is neither a directory nor a
regular file (Dirent.isFile() is false, e.g. a symbolic link) named x.js.
The claim says such an entry is treated as a regular file and handed to
the visitor, which would count it (totalFiles 1); the scan instead skips
it silently, with no file count and no warning. -/
theorem c8_counterexample :
    analyzeFolder "r" (.ok [.other "x.js"]) = .ok ⟨0, 0, 0, [], [], []⟩ ∧
    (⟨0, 0, 0, [], [], []⟩ : ScanResult).totalFiles ≠ 1 := ⟨rfl, by decide⟩

/-- C8 (amended): an entry for which Dirent.isDirectory() and
Dirent.isFile() are both false (symbolic link, socket, device, FIFO) is
skipped entirely by the else-if chain: it is never handed to the file
visitor, contributes nothing, produces no warning, and the loop moves on
to the next entry. -/
theorem c8_nonFileEntriesSkipped :
    (∀ (dirPath name : String) (st : ScanState),
        analyzeEntry dirPath st (.other name) = .ok st) ∧
    (∀ (dirPath name : String) (st : ScanState) (rest : List FsEntry),
        analyzeEntries dirPath st (.other name :: rest) = analyzeEntries dirPath st rest) := by
  exact ⟨fun _ _ _ => rfl, fun _ _ _ _ => rfl⟩

/-- C9: humanReadableSize prints the byte count with unit B below 1024,
the value divided by 1024 to two decimal places with unit KB below
1024*1024, and otherwise the value divided by 1024*1024 to two decimal
places with unit MB (no GB tier).  The integer printed in hundredths is
the correctly rounded quotient: it differs from 100*size/den by at most
half a hundredth, and the two digits printed after the point are single
digits.  The three worked examples hold. -/
theorem c9_humanReadableSize :
    (∀ size : Nat, size < 1024 → humanReadableSize size = toString size ++ " B") ∧
    (∀ size : Nat, 1024 ≤ size → size < 1024 * 1024 →
        humanReadableSize size = toFixed2 size 1024 ++ " KB") ∧
    (∀ size : Nat, 1024 * 1024 ≤ size →
        humanReadableSize size = toFixed2 size (1024 * 1024) ++ " MB") ∧
    (∀ size : Nat,
        1024 * ((200 * size + 1024) / 2048) ≤ 100 * size + 512 ∧
        100 * size ≤ 1024 * ((200 * size + 1024) / 2048) + 512) ∧
    (∀ size : Nat,
        1048576 * ((200 * size + 1048576) / 2097152) ≤ 100 * size + 524288 ∧
        100 * size ≤ 1048576 * ((200 * size + 1048576) / 2097152) + 524288) ∧
    (∀ n : Nat, n % 100 / 10 < 10 ∧ n % 100 % 10 < 10) ∧
    (∀ d : Nat, d < 10 → (toString d).length = 1) ∧
    humanReadableSize 1023 = "1023 B" ∧
    humanReadableSize 1536 = "1.50 KB" ∧
    humanReadableSize 2097152 = "2.00 MB" := by
  refine ⟨?_, ?_, ?_, ?_, ?_, ?_, ?_, ?_, ?_, ?_⟩
  · intro size h
    simp [humanReadableSize, h]
  · intro size h1 h2
    have h3 : ¬size < 1024 := by omega
    simp [humanReadableSize, h3, h2]
  · intro size h
    have h1 : ¬size < 1024 := by omega
    have h2 : ¬size < 1024 * 1024 := by omega
    simp [humanReadableSize, h1, h2]
  · intro size
    omega
  · intro size
    omega
  · intro n
    omega
  · decide
  · rfl
  · rfl
  · rfl

theorem c9_humanReadableSize_witness :
    humanReadableSize 1023 = toString 1023 ++ " B" ∧
    humanReadableSize 1536 = toFixed2 1536 1024 ++ " KB" :=
  ⟨c9_humanReadableSize.1 1023 (by decide),
   c9_humanReadableSize.2.1 1536 (by decide) (by decide)⟩

/-- C10: the computed extension never contains a dot (it is the lowercased
text strictly after the last dot of the last path component), so a file
name never classifies to a dotted allow-list entry such as spec.js,
package.json, compose.yml or gitlab-ci.yml; and the entries dockerfile
and gitignore are never reached by the files they name, since Dockerfile
classifies to the empty extension and .gitignore (a leading-dot name) also
classifies to the empty extension, which is not allow-listed, so neither
file is counted. -/
theorem c10_unreachableEntries :
    (∀ p : String, '.' ∉ (extOf p).data) ∧
    (∀ p e : String, '.' ∈ e.data → extOf p ≠ e) ∧
    extOf "Dockerfile" = "" ∧
    extOf ".gitignore" = "" ∧
    "" ∉ CODE_FILE_EXTENSIONS ∧
    (∀ (dirPath : String) (st : ScanState) (c : Except String String) (s : Except String Nat),
        analyzeEntry dirPath st (.file "Dockerfile" c s) = .ok st) ∧
    (∀ (dirPath : String) (st : ScanState) (c : Except String String) (s : Except String Nat),
        analyzeEntry dirPath st (.file ".gitignore" c s) = .ok st) := by
  have hdot : ∀ p : String, '.' ∉ (extOf p).data := extOf_no_dot
  refine ⟨hdot, ?_, rfl, rfl, by decide, ?_, ?_⟩
  · intro p e he heq
    exact hdot p (heq ▸ he)
  · intro dirPath st c s
    have he : extOf (pathJoin dirPath "Dockerfile") = "" :=
      (extOf_join dirPath (by decide)).trans rfl
    have hmem : ("" : String) ∉ CODE_FILE_EXTENSIONS := by decide
    simp [analyzeEntry, he, hmem]
  · intro dirPath st c s
    have he : extOf (pathJoin dirPath ".gitignore") = "" :=
      (extOf_join dirPath (by decide)).trans rfl
    have hmem : ("" : String) ∉ CODE_FILE_EXTENSIONS := by decide
    simp [analyzeEntry, he, hmem]

theorem c10_unreachableEntries_witness :
    extOf "a.spec.js" ≠ "spec.js" ∧ extOf "conf.package.json" ≠ "package.json" :=
  ⟨c10_unreachableEntries.2.1 "a.spec.js" "spec.js" (by decide),
   c10_unreachableEntries.2.1 "conf.package.json" "package.json" (by decide)⟩

theorem extnameBase_no_dot {base : String} (h : '.' ∉ base.data) : extnameBase base = "" := by
  cases hd : base.data with
  | nil => simp [extnameBase, hd]
  | cons c cs =>
    have hdd : base ≠ ".." := by
      intro heq
      rw [heq] at h
      exact h (by decide)
    have hcs : '.' ∉ cs := by
      intro hc
      apply h
      rw [hd]
      exact List.mem_cons_of_mem c hc
    simp [extnameBase, hd, hdd, (afterLast_eq_none_iff '.' cs).2 hcs]

theorem extOf_of_no_dot {name : String} (hns : noSlash name = true)
    (h : '.' ∉ name.data) : extOf name = "" := by
  rw [extOf, extname, basename_noSlash hns, extnameBase_no_dot h]
  rfl

theorem extnameBase_leading_dot {base : String} {cs : List Char}
    (hd : base.data = '.' :: cs) (hcs : '.' ∉ cs) : extnameBase base = "" := by
  have hdd : base ≠ ".." := by
    intro heq
    subst heq
    have h2 : ('.' :: ['.'] : List Char) = '.' :: cs := hd
    injection h2 with _ h4
    exact hcs (h4 ▸ (by decide : '.' ∈ ['.']))
  unfold extnameBase
  simp only [hd, if_neg hdd, (afterLast_eq_none_iff '.' cs).2 hcs]

theorem extOf_leading_dot {name : String} {cs : List Char} (hns : noSlash name = true)
    (hd : name.data = '.' :: cs) (hcs : '.' ∉ cs) : extOf name = "" := by
  rw [extOf, extname, basename_noSlash hns, extnameBase_leading_dot hd hcs]
  rfl

theorem extOf_last_dot {name : String} {pre post : List Char}
    (hns : noSlash name = true)
    (hd : name.data = pre ++ '.' :: post) (hpost : '.' ∉ post) (hpre : pre ≠ []) :
    extOf name = ⟨post.map Char.toLower⟩ := by
  rw [extOf, extname, basename_noSlash hns]
  by_cases hdd : name = ".."
  · subst hdd
    have h2 : ('.' :: '.' :: ([] : List Char)) = pre ++ '.' :: post := hd
    have hpost_nil : post = [] := by
      cases pre with
      | nil => exact absurd rfl hpre
      | cons c pre2 =>
        simp only [List.cons_append] at h2
        injection h2 with hc h3
        cases pre2 with
        | nil =>
          simp only [List.nil_append] at h3
          injection h3 with _ h4
          exact h4.symm
        | cons d pre3 =>
          simp only [List.cons_append] at h3
          injection h3 with _ h5
          exact absurd h5.symm (by simp)
    subst hpost_nil
    rfl
  · cases pre with
    | nil => exact absurd rfl hpre
    | cons c pre2 =>
      have hd2 : name.data = c :: (pre2 ++ '.' :: post) := by
        rw [hd]
        rfl
      unfold extnameBase
      simp only [hd2, if_neg hdd, afterLast_append '.' pre2 post hpost]
      rfl

/-- C6 counterexample: the claim describes the extension as the text after
the last dot (so ".gitignore" would classify to "gitignore", which is in
the allow-list, and such a file would be counted), but the classifier
gives hidden files the empty extension, so a readable .gitignore file is
excluded entirely: the scan of a directory holding only that file counts
zero files. -/
theorem c6_counterexample :
    claimedExt ".gitignore" = "gitignore" ∧
    "gitignore" ∈ CODE_FILE_EXTENSIONS ∧
    extOf ".gitignore" = "" ∧
    extOf ".gitignore" ≠ claimedExt ".gitignore" ∧
    analyzeFolder "r" (.ok [.file ".gitignore" (.ok "node_modules\n") (.ok 13)]) =
      .ok ⟨0, 0, 0, [], [], []⟩ ∧
    (⟨0, 0, 0, [], [], []⟩ : ScanResult).totalFiles ≠ 1 :=
  ⟨rfl, by decide, rfl, by decide, rfl, by decide⟩

/-- C6 (amended): for a slash-free file name the classifier returns the
lowercased text strictly after the last dot, except that a name with no
dot classifies to the empty string and so does a leading-dot name whose
only dot is its first character (and the name "..", whose forced
decomposition also yields the empty extension); a file is visited and
counted if and only if the computed extension is in the allow-list, and a
rejected file leaves the scan state completely unchanged. -/
theorem c6_extensionClassifier :
    (∀ name : String, noSlash name = true → '.' ∉ name.data → extOf name = "") ∧
    (∀ (name : String) (cs : List Char), noSlash name = true →
        name.data = '.' :: cs → '.' ∉ cs → extOf name = "") ∧
    (∀ (name : String) (pre post : List Char), noSlash name = true →
        name.data = pre ++ '.' :: post → '.' ∉ post → pre ≠ [] →
        extOf name = ⟨post.map Char.toLower⟩) ∧
    (∀ (dirPath name : String) (st : ScanState) (c : Except String String)
        (s : Except String Nat),
        extOf (pathJoin dirPath name) ∉ CODE_FILE_EXTENSIONS →
        analyzeEntry dirPath st (.file name c s) = .ok st) ∧
    (∀ (dirPath name : String) (st : ScanState) (c : Except String String)
        (s : Except String Nat),
        extOf (pathJoin dirPath name) ∈ CODE_FILE_EXTENSIONS →
        analyzeEntry dirPath st (.file name c s) =
          .ok (visitFile st (pathJoin dirPath name) (extOf (pathJoin dirPath name)) c s)) := by
  refine ⟨?_, ?_, ?_, ?_, ?_⟩
  · intro name hns h
    exact extOf_of_no_dot hns h
  · intro name cs hns hd hcs
    exact extOf_leading_dot hns hd hcs
  · intro name pre post hns hd hpost hpre
    exact extOf_last_dot hns hd hpost hpre
  · intro dirPath name st c s h
    simp [analyzeEntry, h]
  · intro dirPath name st c s h
    simp [analyzeEntry, h]

theorem c6_extensionClassifier_witness :
    extOf "Main.JS" = ⟨['J', 'S'].map Char.toLower⟩ ∧ extOf "README" = "" :=
  ⟨c6_extensionClassifier.2.2.1 "Main.JS" ['M', 'a', 'i', 'n'] ['J', 'S']
      (by decide) (by decide) (by decide) (by decide),
   c6_extensionClassifier.1 "README" (by decide) (by decide)⟩

/-- C3 counterexample: an accepted file whose content read succeeds but
whose metadata read fails.  The claim says a file whose content or
metadata read fails contributes no lines; here the stat of r/x.js fails
after the content "a\nb" was read, and the scan still adds its 2 lines to
totalLines and records it as a top-file candidate (only the size is
lost). -/
theorem c3_counterexample :
    analyzeFolder "r" (.ok [.file "x.js" (.ok "a\nb") (.error "EACCES")]) =
      .ok ⟨2, 1, 0, [("r/x.js", 2)], [],
           ["Warning: Could not read file r/x.js EACCES"]⟩ ∧
    (⟨2, 1, 0, [("r/x.js", 2)], [],
        ["Warning: Could not read file r/x.js EACCES"]⟩ : ScanResult).totalLines ≠ 0 :=
  ⟨rfl, by decide⟩

/-- C3 (amended): the counter is incremented before the read attempt, so a
failing file is still counted toward totalFiles; a file whose content
read fails contributes no lines, no size, no candidate entry and no
extension count; a file whose content read succeeds but whose metadata
read fails contributes its lines and its candidate entry but no size and
no extension count; in both cases a warning naming the full path and the
error message goes to the diagnostic stream and the loop continues with
the remaining entries. -/
theorem c3_perFileErrors :
    (∀ (dirPath name msg : String) (st : ScanState) (sz : Except String Nat)
        (rest : List FsEntry),
        extOf (pathJoin dirPath name) ∈ CODE_FILE_EXTENSIONS →
        analyzeEntries dirPath st (.file name (.error msg) sz :: rest) =
          analyzeEntries dirPath
            { st with totalFiles := st.totalFiles + 1,
                      warnings := st.warnings ++ [warnLine (pathJoin dirPath name) msg] }
            rest) ∧
    (∀ (dirPath name text msg : String) (st : ScanState) (rest : List FsEntry),
        extOf (pathJoin dirPath name) ∈ CODE_FILE_EXTENSIONS →
        analyzeEntries dirPath st (.file name (.ok text) (.error msg) :: rest) =
          analyzeEntries dirPath
            { st with totalFiles := st.totalFiles + 1,
                      totalLines := st.totalLines + countLines text,
                      fileLines := st.fileLines ++ [(pathJoin dirPath name, countLines text)],
                      warnings := st.warnings ++ [warnLine (pathJoin dirPath name) msg] }
            rest) := by
  constructor
  · intro dirPath name msg st sz rest h
    simp only [analyzeEntries, analyzeEntry, if_pos h]
    rfl
  · intro dirPath name text msg st rest h
    simp only [analyzeEntries, analyzeEntry, if_pos h]
    rfl

theorem c3_perFileErrors_witness :
    analyzeEntries "r" initState [.file "a.py" (.error "EIO") (.ok 7)] =
      analyzeEntries "r"
        { initState with totalFiles := initState.totalFiles + 1,
                         warnings := initState.warnings ++
                           [warnLine (pathJoin "r" "a.py") "EIO"] }
        [] :=
  c3_perFileErrors.1 "r" "a.py" "EIO" initState (.ok 7) [] (by decide)

/-- C4 counterexample: an accepted file whose content read fails.  The
counter is incremented before the read, so totalFiles is 1 while no
candidate record was pushed (topFiles is empty), breaking the claimed
equality between totalFiles and the number of records created. -/
theorem c4_counterexample :
    analyzeEntries "d" initState [.file "y.ts" (.error "EPERM") (.ok 5)] =
      .ok ⟨0, 1, 0, [], [], ["Warning: Could not read file d/y.ts EPERM"]⟩ ∧
    (⟨0, 1, 0, [], [], ["Warning: Could not read file d/y.ts EPERM"]⟩ : ScanState).totalFiles ≠
      (⟨0, 1, 0, [], [],
          ["Warning: Could not read file d/y.ts EPERM"]⟩ : ScanState).fileLines.length :=
  ⟨rfl, by decide⟩

/-- C4 (amended): in a scan with no per-file read errors, totalFiles
equals the number of records pushed into the top-files candidate list,
totalLines equals the sum of their line counts, the candidate list is
exactly the accepted files in traversal order, and totalSizeBytes equals
the sum of their stat sizes. -/
theorem c4_totalsInvariant (dirPath : String) (entries : List FsEntry) (st : ScanState)
    (hwf : allWfOk entries = true)
    (hres : analyzeEntries dirPath initState entries = .ok st) :
    st.totalFiles = st.fileLines.length ∧
    st.totalLines = (st.fileLines.map Prod.snd).sum ∧
    st.fileLines = (acceptedEntries dirPath entries).map (fun f => (f.path, f.lines)) ∧
    st.totalSize = ((acceptedEntries dirPath entries).map AccFile.size).sum := by
  rw [analyzeEntries_wf dirPath initState entries hwf] at hres
  injection hres with hres
  subst hres
  refine ⟨?_, ?_, ?_, ?_⟩
  · rw [foldl_applyAcc_totalFiles, foldl_applyAcc_fileLines]
    simp [initState]
  · rw [foldl_applyAcc_totalLines, foldl_applyAcc_fileLines]
    simp [initState, List.map_map]
    rfl
  · rw [foldl_applyAcc_fileLines]
    simp [initState]
  · rw [foldl_applyAcc_totalSize]
    simp [initState]

theorem c4_totalsInvariant_witness :
    (⟨2, 1, 5, [("r/a.js", 2)], [("js", 1)], []⟩ : ScanState).totalFiles =
      (⟨2, 1, 5, [("r/a.js", 2)], [("js", 1)], []⟩ : ScanState).fileLines.length ∧
    (⟨2, 1, 5, [("r/a.js", 2)], [("js", 1)], []⟩ : ScanState).totalLines =
      ((⟨2, 1, 5, [("r/a.js", 2)], [("js", 1)], []⟩ : ScanState).fileLines.map Prod.snd).sum ∧
    (⟨2, 1, 5, [("r/a.js", 2)], [("js", 1)], []⟩ : ScanState).fileLines =
      (acceptedEntries "r" [.file "a.js" (.ok "x\ny") (.ok 5)]).map
        (fun f => (f.path, f.lines)) ∧
    (⟨2, 1, 5, [("r/a.js", 2)], [("js", 1)], []⟩ : ScanState).totalSize =
      ((acceptedEntries "r" [.file "a.js" (.ok "x\ny") (.ok 5)]).map AccFile.size).sum :=
  c4_totalsInvariant "r" [.file "a.js" (.ok "x\ny") (.ok 5)]
    ⟨2, 1, 5, [("r/a.js", 2)], [("js", 1)], []⟩ (by decide) rfl

/-- C2 counterexample: a scan that completes with one accepted file whose
content read fails.  totalFiles is 1 but topFiles is empty, so the
claimed length min(10, totalFiles) = 1 fails for a completing scan with a
per-file read error. -/
theorem c2_counterexample :
    analyzeFolder "p" (.ok [.file "big.go" (.error "EBUSY") (.ok 9)]) =
      .ok ⟨0, 1, 0, [], [], ["Warning: Could not read file p/big.go EBUSY"]⟩ ∧
    (⟨0, 1, 0, [], [],
        ["Warning: Could not read file p/big.go EBUSY"]⟩ : ScanResult).topFiles.length ≠
      min 10 (⟨0, 1, 0, [], [],
        ["Warning: Could not read file p/big.go EBUSY"]⟩ : ScanResult).totalFiles :=
  ⟨rfl, by decide⟩

/-- C2 (amended): for every scan that completes with no per-file read
errors, topFiles is the 10-truncation of the stable descending sort of
the candidate list, its length is min(10, totalFiles), it is sorted
descending by line count, and the sort moves no element past an equal
key (ties retain encounter order); topExtensions likewise is the
10-truncation of the stable descending sort of the insertion-ordered
extension tally, its length is min(10, number of distinct accepted
extensions), sorted descending by frequency with ties in encounter
order. -/
theorem c2_topK (folderPath : String) (entries : List FsEntry) (res : ScanResult)
    (hwf : allWfOk entries = true)
    (hres : analyzeFolder folderPath (.ok entries) = .ok res) :
    res.topFiles =
      (sortDesc (fun p => p.2)
        ((acceptedEntries folderPath entries).map (fun f => (f.path, f.lines)))).take 10 ∧
    res.topFiles.length = min 10 res.totalFiles ∧
    List.Pairwise (fun a b => b.2 ≤ a.2) res.topFiles ∧
    (∀ k : Nat,
      (sortDesc (fun p => p.2)
        ((acceptedEntries folderPath entries).map (fun f => (f.path, f.lines)))).filter
          (fun y => y.2 == k) =
      ((acceptedEntries folderPath entries).map (fun f => (f.path, f.lines))).filter
          (fun y => y.2 == k)) ∧
    res.topExtensions =
      (sortDesc (fun p => p.2)
        (((acceptedEntries folderPath entries).map AccFile.ext).foldl bumpExt [])).take 10 ∧
    res.topExtensions.length =
      min 10 (distinctCount ((acceptedEntries folderPath entries).map AccFile.ext)) ∧
    List.Pairwise (fun a b => b.2 ≤ a.2) res.topExtensions ∧
    (∀ k : Nat,
      (sortDesc (fun p => p.2)
        (((acceptedEntries folderPath entries).map AccFile.ext).foldl bumpExt [])).filter
          (fun y => y.2 == k) =
      (((acceptedEntries folderPath entries).map AccFile.ext).foldl bumpExt []).filter
          (fun y => y.2 == k)) := by
  have hstep := analyzeEntries_wf folderPath initState entries hwf
  rw [analyzeFolder, hstep] at hres
  injection hres with hres
  have hfl : ((acceptedEntries folderPath entries).foldl applyAcc initState).fileLines =
      (acceptedEntries folderPath entries).map (fun f => (f.path, f.lines)) := by
    rw [foldl_applyAcc_fileLines]
    simp [initState]
  have hec : ((acceptedEntries folderPath entries).foldl applyAcc initState).extensionsCount =
      ((acceptedEntries folderPath entries).map AccFile.ext).foldl bumpExt [] := by
    rw [foldl_applyAcc_extCount]
    rfl
  have htf : ((acceptedEntries folderPath entries).foldl applyAcc initState).totalFiles =
      (acceptedEntries folderPath entries).length := by
    rw [foldl_applyAcc_totalFiles]
    simp [initState]
  subst hres
  refine ⟨?_, ?_, ?_, ?_, ?_, ?_, ?_, ?_⟩
  · simp only [finalize, hfl]
  · simp only [finalize, hfl, htf, List.length_take, length_sortDesc, List.length_map]
  · exact List.Pairwise.sublist (List.take_sublist _ _)
      (sortDesc_pairwise (fun (p : String × Nat) => p.2) _)
  · intro k
    exact sortDesc_filter (fun (p : String × Nat) => p.2) _ k
  · simp only [finalize, hec]
  · simp only [finalize, hec, List.length_take, length_sortDesc, distinctCount]
    have hkeys := keys_foldl_bumpExt
      ((acceptedEntries folderPath entries).map AccFile.ext) []
    have hlen : (((acceptedEntries folderPath entries).map AccFile.ext).foldl bumpExt
        []).length =
        (((acceptedEntries folderPath entries).map AccFile.ext).foldl insKey []).length := by
      rw [← List.length_map _ Prod.fst, hkeys]
      rfl
    rw [hlen]
  · exact List.Pairwise.sublist (List.take_sublist _ _)
      (sortDesc_pairwise (fun (p : String × Nat) => p.2) _)
  · intro k
    exact sortDesc_filter (fun (p : String × Nat) => p.2) _ k

theorem c2_topK_witness :
    (⟨6, 3, 60, [("r/a.js", 3), ("r/c.md", 2), ("r/b.js", 1)],
        [("js", 2), ("md", 1)], []⟩ : ScanResult).topFiles =
      (sortDesc (fun p => p.2)
        ((acceptedEntries "r"
          [.file "a.js" (.ok "l1\nl2\nl3") (.ok 30),
           .file "b.js" (.ok "x") (.ok 10),
           .file "c.md" (.ok "y\nz") (.ok 20)]).map (fun f => (f.path, f.lines)))).take 10 ∧
    (⟨6, 3, 60, [("r/a.js", 3), ("r/c.md", 2), ("r/b.js", 1)],
        [("js", 2), ("md", 1)], []⟩ : ScanResult).topFiles.length =
      min 10 (⟨6, 3, 60, [("r/a.js", 3), ("r/c.md", 2), ("r/b.js", 1)],
        [("js", 2), ("md", 1)], []⟩ : ScanResult).totalFiles ∧
    List.Pairwise (fun a b => b.2 ≤ a.2)
      (⟨6, 3, 60, [("r/a.js", 3), ("r/c.md", 2), ("r/b.js", 1)],
        [("js", 2), ("md", 1)], []⟩ : ScanResult).topFiles ∧
    (∀ k : Nat,
      (sortDesc (fun p => p.2)
        ((acceptedEntries "r"
          [.file "a.js" (.ok "l1\nl2\nl3") (.ok 30),
           .file "b.js" (.ok "x") (.ok 10),
           .file "c.md" (.ok "y\nz") (.ok 20)]).map (fun f => (f.path, f.lines)))).filter
          (fun y => y.2 == k) =
      ((acceptedEntries "r"
          [.file "a.js" (.ok "l1\nl2\nl3") (.ok 30),
           .file "b.js" (.ok "x") (.ok 10),
           .file "c.md" (.ok "y\nz") (.ok 20)]).map (fun f => (f.path, f.lines))).filter
          (fun y => y.2 == k)) ∧
    (⟨6, 3, 60, [("r/a.js", 3), ("r/c.md", 2), ("r/b.js", 1)],
        [("js", 2), ("md", 1)], []⟩ : ScanResult).topExtensions =
      (sortDesc (fun p => p.2)
        (((acceptedEntries "r"
          [.file "a.js" (.ok "l1\nl2\nl3") (.ok 30),
           .file "b.js" (.ok "x") (.ok 10),
           .file "c.md" (.ok "y\nz") (.ok 20)]).map AccFile.ext).foldl bumpExt [])).take 10 ∧
    (⟨6, 3, 60, [("r/a.js", 3), ("r/c.md", 2), ("r/b.js", 1)],
        [("js", 2), ("md", 1)], []⟩ : ScanResult).topExtensions.length =
      min 10 (distinctCount ((acceptedEntries "r"
          [.file "a.js" (.ok "l1\nl2\nl3") (.ok 30),
           .file "b.js" (.ok "x") (.ok 10),
           .file "c.md" (.ok "y\nz") (.ok 20)]).map AccFile.ext)) ∧
    List.Pairwise (fun a b => b.2 ≤ a.2)
      (⟨6, 3, 60, [("r/a.js", 3), ("r/c.md", 2), ("r/b.js", 1)],
        [("js", 2), ("md", 1)], []⟩ : ScanResult).topExtensions ∧
    (∀ k : Nat,
      (sortDesc (fun p => p.2)
        (((acceptedEntries "r"
          [.file "a.js" (.ok "l1\nl2\nl3") (.ok 30),
           .file "b.js" (.ok "x") (.ok 10),
           .file "c.md" (.ok "y\nz") (.ok 20)]).map AccFile.ext).foldl bumpExt [])).filter
          (fun y => y.2 == k) =
      (((acceptedEntries "r"
          [.file "a.js" (.ok "l1\nl2\nl3") (.ok 30),
           .file "b.js" (.ok "x") (.ok 10),
           .file "c.md" (.ok "y\nz") (.ok 20)]).map AccFile.ext).foldl bumpExt []).filter
          (fun y => y.2 == k)) :=
  c2_topK "r"
    [.file "a.js" (.ok "l1\nl2\nl3") (.ok 30),
     .file "b.js" (.ok "x") (.ok 10),
     .file "c.md" (.ok "y\nz") (.ok 20)]
    ⟨6, 3, 60, [("r/a.js", 3), ("r/c.md", 2), ("r/b.js", 1)], [("js", 2), ("md", 1)], []⟩
    (by decide) rfl
